import Mathlib

/-! Verification of the cl command-line column filter.

The Go program (main.go) reads line-oriented text from standard input, splits
each line into fields and prints the user-selected 1-based columns, joined by
tabs.  The definitions below are a shallow embedding of main.go together with
the behavior of the Go standard-library pieces it relies on (flag.Parse,
strconv.ParseInt, strings.Fields, regexp.Split on literal patterns and
bufio.Scanner with ScanLines).  Line numbers in doc comments refer to main.go.
-/

namespace Cl

/-- Character test of Go unicode.IsSpace, the Unicode White_Space property;
strings.Fields splits on runs of such characters. -/
def goIsSpace (c : Char) : Bool :=
  let n := c.toNat
  decide ((0x9 ≤ n ∧ n ≤ 0xD) ∨ n = 0x20 ∨ n = 0x85 ∨ n = 0xA0 ∨ n = 0x1680 ∨
    (0x2000 ≤ n ∧ n ≤ 0x200A) ∨ n = 0x2028 ∨ n = 0x2029 ∨ n = 0x202F ∨
    n = 0x205F ∨ n = 0x3000)

/-- Accumulating loop of Go strings.Fields (main.go line 168) over the
characters of a line: collect maximal runs of non-whitespace characters, so
empty tokens never appear.  cur holds the current run, reversed. -/
def goFieldsAux : List Char → List Char → List (List Char)
  | [], cur => if cur = [] then [] else [cur.reverse]
  | c :: rest, cur =>
    if goIsSpace c then
      if cur = [] then goFieldsAux rest []
      else cur.reverse :: goFieldsAux rest []
    else goFieldsAux rest (c :: cur)

/-- Model of Go strings.Fields (main.go line 168). -/
def goFields (s : String) : List String :=
  (goFieldsAux s.toList []).map String.mk

/-- listStartsWith pat l holds when pat is an initial segment of l; it models
the match test of a literal regular-expression pattern at one position. -/
def listStartsWith : List Char → List Char → Bool
  | [], _ => true
  | _ :: _, [] => false
  | p :: ps, c :: cs => p == c && listStartsWith ps cs

/-- Model of Go regexp Split with limit -1 (main.go line 170) for a literal
pattern: split around every non-overlapping leftmost occurrence, keeping empty
tokens.  The recursion is fuel-based; fuel at least the length of the
character list is enough whenever the pattern is non-empty. -/
def goSplitAux (sep : List Char) : Nat → List Char → List Char → List (List Char)
  | _, [], cur => [cur.reverse]
  | 0, cs, cur => [cur.reverse ++ cs]
  | fuel + 1, c :: rest, cur =>
    if listStartsWith sep (c :: rest) then
      cur.reverse :: goSplitAux sep fuel (List.drop sep.length (c :: rest)) []
    else
      goSplitAux sep fuel rest (c :: cur)

/-- Split a character list around every leftmost occurrence of sep. -/
def goSplit (sep cs : List Char) : List (List Char) :=
  goSplitAux sep cs.length cs []

/-- Compiled separator.  The model covers the metacharacter-free fragment of
Go regexp syntax: such a pattern matches exactly itself.  Patterns containing
metacharacters are outside the modelled fragment; the only such pattern
exercised below, an unclosed bracket, also fails regexp.Compile in Go. -/
inductive GoRegex where
  | literal (pat : String)
deriving DecidableEq

/-- Model of regexp.Compile (main.go line 149) on the metacharacter-free
fragment: a pattern without metacharacters compiles to a literal matcher. -/
def goRegexpCompile (pat : String) : Option GoRegex :=
  if pat.toList.all (fun c =>
      !(['\\', '^', '$', '.', '|', '?', '*', '+', '(', ')', '[', ']',
         '\x7b', '\x7d'].contains c)) then
    some (.literal pat)
  else none

/-- Splitting a line by a compiled separator (main.go line 170). -/
def regexSplit : GoRegex → String → List String
  | .literal pat, s => (goSplit pat.toList s.toList).map String.mk

/-- Field splitting for one line (main.go lines 166-171): strings.Fields when
no separator was compiled, regexp Split otherwise. -/
def splitLine (re : Option GoRegex) (line : String) : List String :=
  match re with
  | none => goFields line
  | some r => regexSplit r line

/-- dropCR drops one trailing carriage return, as the dropCR helper of Go
bufio.ScanLines does on every emitted token. -/
def dropCR (cs : List Char) : List Char :=
  if cs.getLast? = some '\r' then cs.dropLast else cs

/-- Accumulating loop of bufio.Scanner with ScanLines (main.go lines 159-160):
tokens are the newline-separated pieces of the input, a final fragment without
a trailing newline is still one token, a trailing newline produces no extra
empty token, and one trailing carriage return is removed from each token. -/
def scanLinesAux : List Char → List Char → List (List Char)
  | [], cur => if cur = [] then [] else [dropCR cur.reverse]
  | '\n' :: rest, cur => dropCR cur.reverse :: scanLinesAux rest []
  | c :: rest, cur => scanLinesAux rest (c :: cur)

/-- The lines of the input text as seen by the scanner. -/
def scanLines (input : String) : List String :=
  (scanLinesAux input.toList []).map String.mk

/-- Output for the fields of one line (main.go lines 173-182): walk the fields
with their 0-based index i; for each field whose 1-based position i+1 is a
requested column, write a tab first when a field was already written on this
line, then the field itself.  The fields are written with fmt.Fprint, which
performs no format-verb interpretation. -/
def emitFields (columns : List Int) : Nat → Bool → List String → String
  | _, _, [] => ""
  | i, printedFirstColumn, f :: rest =>
    if columns.contains ((i : Int) + 1) then
      (if printedFirstColumn then "\t" else "") ++ f ++
        emitFields columns (i + 1) true rest
    else
      emitFields columns (i + 1) printedFirstColumn rest

/-- Output of one processed line, including the unconditional final newline of
main.go line 183. -/
def emitLine (columns : List Int) (fields : List String) : String :=
  emitFields columns 0 false fields ++ "\n"

/-- The scan loop (main.go lines 158-184); the Bool argument models the
firstRow flag, which starts true and is set to false exactly when a line is
skipped as the header. -/
def scanLoop (columns : List Int) (re : Option GoRegex) (ignoreHeaderRow : Bool) :
    Bool → List String → String
  | _, [] => ""
  | firstRow, line :: rest =>
    if firstRow && ignoreHeaderRow then
      scanLoop columns re ignoreHeaderRow false rest
    else
      emitLine columns (splitLine re line) ++
        scanLoop columns re ignoreHeaderRow firstRow rest

/-- Everything the scan loop writes to standard output for a whole input. -/
def scanOut (columns : List Int) (re : Option GoRegex) (ignoreHeaderRow : Bool)
    (input : String) : String :=
  scanLoop columns re ignoreHeaderRow true (scanLines input)

/-- Model of Go strconv.ParseInt with base 10 and bitSize 64 (main.go line
117): an optional sign followed by at least one ASCII digit, with the value
required to fit in a signed 64-bit integer; any other input is an error. -/
def goParseInt64 (s : String) : Option Int :=
  let sd : Int × List Char :=
    match s.toList with
    | '+' :: cs => (1, cs)
    | '-' :: cs => (-1, cs)
    | cs => (1, cs)
  if sd.2 ≠ [] ∧ sd.2.all (fun c => c.isDigit) then
    let v : Int :=
      sd.1 * ((sd.2.foldl (fun acc c => acc * 10 + (c.toNat - '0'.toNat)) 0 : Nat) : Int)
    if -(2 ^ 63) ≤ v ∧ v ≤ 2 ^ 63 - 1 then some v else none
  else none

/-- Items the program writes to the standard error stream.  Each constructor
stands for one write in main.go; the rendered text with its Go format verbs is
not modelled.  parseArgFailed is line 119, invalidColumn line 123,
conflictingSeparators line 138, separatorCompileFailed line 151.
flagUsageError is the diagnostic flag.Parse prints on a bad flag, and
flagDefaults is the option listing of flag.PrintDefaults, which goes to the
standard error stream because the flag package's output is never changed. -/
inductive ErrMsg where
  | parseArgFailed (arg : String)
  | invalidColumn (c : Int)
  | conflictingSeparators
  | separatorCompileFailed (sep : String)
  | flagUsageError
  | flagDefaults
deriving DecidableEq

/-- Column-argument validation loop (main.go lines 115-127).  The Go map of
requested columns is modelled as a duplicate-free list in insertion order;
only membership is ever used.  The loop stops at the first bad token. -/
def parseColumnsAux : List Int → List String → Except ErrMsg (List Int)
  | acc, [] => .ok acc
  | acc, arg :: rest =>
    match goParseInt64 arg with
    | none => .error (.parseArgFailed arg)
    | some c =>
      if c < 1 then .error (.invalidColumn c)
      else parseColumnsAux (if acc.contains c then acc else acc ++ [c]) rest

/-- The requested columns from the positional arguments (main.go 115-127). -/
def parseColumns (args : List String) : Except ErrMsg (List Int) :=
  parseColumnsAux [] args

/-- Body of the custom flag.Usage of main.go (lines 65-94), printed to
standard output with fmt.Printf; the option defaults that follow it are
written separately by flag.PrintDefaults to standard error. -/
def usageText : String :=
  "Usage: cl [options...] <column_indexes...>\n\ncl is a tool for filtering data by columns on the command line.\n\nExamples:\n\n\tFilter a simple table of data for the second column:\n\t$ echo \"1 2 3\n\t> 4 5 6\n\t> 7 8 9\" | cl 2\n\t2\n\t5\n\t8\n\n\tGrab a list of process IDs from ps, ignoring the header row (-i):\n\t$ ps | cl 1 -i\n\t7958\n\t29855\n\n\tGrab the third column of output when there may be spaces, in values, and tabs are the separator (-t):\n\t$ netstat | cl 3 -t\n\n\tOr the first 2 columns:\n\t$ netstat | cl 1 2 -t\n\n\tOr the first 4 columns (in bash):\n\t$ netstat | cl \x7b1..4\x7d -t\n\nOptions:\n"

/-- Configuration after flag.Parse: the three option values (main.go lines
60-62, defaults empty string, false, false) and the remaining positional
arguments, flag.Args(). -/
structure GoFlags where
  separator : String
  useTabSeparator : Bool
  ignoreHeaderRow : Bool
  args : List String
deriving DecidableEq

/-- Observable outcome of a run: the process exit code, everything written to
standard output, and the items written to standard error, in order. -/
structure RunResult where
  exitCode : Nat
  stdout : String
  stderrMsgs : List ErrMsg
deriving DecidableEq

/-- Main.go lines 129-189, after column validation: the empty-set usage check
(lines 129-132, help body to standard output, defaults to standard error,
exit 1), separator conflict check (137-140), tab shorthand (142-144),
separator compilation (146-154) and the scan loop. -/
def runAfterColumns (flags : GoFlags) (columns : List Int) (input : String) :
    RunResult :=
  if columns = [] then
    ⟨1, usageText, [.flagDefaults]⟩
  else if flags.separator ≠ "" ∧ flags.useTabSeparator then
    ⟨1, "", [.conflictingSeparators]⟩
  else
    let separator := if flags.useTabSeparator then "\t" else flags.separator
    if separator = "" then
      ⟨0, scanOut columns none flags.ignoreHeaderRow input, []⟩
    else
      match goRegexpCompile separator with
      | none => ⟨1, "", [.separatorCompileFailed separator]⟩
      | some re => ⟨0, scanOut columns (some re) flags.ignoreHeaderRow input, []⟩

/-- The run function of main.go (lines 109-190), given the already-parsed flag
values and the entire standard-input text. -/
def runCore (flags : GoFlags) (input : String) : RunResult :=
  match parseColumns flags.args with
  | .error e => ⟨1, "", [e]⟩
  | .ok columns => runAfterColumns flags columns input

/-- Outcome of flag.Parse: a parsed configuration, an explicit help request,
or any other flag error. -/
inductive ParsedArgs where
  | ok (flags : GoFlags)
  | help
  | badFlag
deriving DecidableEq

/-- splitAtEq cs splits cs at its first equals sign, when there is one. -/
def splitAtEq : List Char → Option (List Char × List Char)
  | [] => none
  | '=' :: rest => some ([], rest)
  | c :: rest =>
    match splitAtEq rest with
    | none => none
    | some (pre, post) => some (c :: pre, post)

/-- Model of Go strconv.ParseBool, used by flag for boolean flag values. -/
def goParseBool (s : String) : Option Bool :=
  if ["1", "t", "T", "true", "TRUE", "True"].contains s then some true
  else if ["0", "f", "F", "false", "FALSE", "False"].contains s then some false
  else none

/-- Model of flag.Parse of the Go standard library for the flag set of cl
(string flag s, boolean flags t and i, plus the built-in h and help), with
error handling ExitOnError.  Parsing stops at the first argument that is not a
flag (a lone dash, or anything not starting with a dash) and the remaining
arguments, that one included, become the positional arguments; the bare
double-dash terminator consumes itself; one or two leading dashes are
equivalent; a boolean flag may carry an =value; the s flag takes the following
argument as its value when it carries no =value.  A help request reports
ErrHelp (exit status 0); every other failure exits with status 2. -/
def parseFlagsLoop : String → Bool → Bool → List String → ParsedArgs
  | sep, tab, ig, [] => .ok ⟨sep, tab, ig, []⟩
  | sep, tab, ig, s :: rest =>
    match s.toList with
    | [] => .ok ⟨sep, tab, ig, s :: rest⟩
    | [_] => .ok ⟨sep, tab, ig, s :: rest⟩
    | c0 :: c1 :: cs =>
      if c0 ≠ '-' then .ok ⟨sep, tab, ig, s :: rest⟩
      else if c1 = '-' ∧ cs = [] then .ok ⟨sep, tab, ig, rest⟩
      else
        match (if c1 = '-' then cs else c1 :: cs) with
        | [] => .badFlag
        | n0 :: nrest =>
          if n0 = '-' ∨ n0 = '=' then .badFlag
          else
            let nv : List Char × Option (List Char) :=
              match splitAtEq nrest with
              | none => (n0 :: nrest, none)
              | some (pre, post) => (n0 :: pre, some post)
            if nv.1 = ['t'] then
              match nv.2 with
              | none => parseFlagsLoop sep true ig rest
              | some v =>
                match goParseBool (String.mk v) with
                | some b => parseFlagsLoop sep b ig rest
                | none => .badFlag
            else if nv.1 = ['i'] then
              match nv.2 with
              | none => parseFlagsLoop sep tab true rest
              | some v =>
                match goParseBool (String.mk v) with
                | some b => parseFlagsLoop sep tab b rest
                | none => .badFlag
            else if nv.1 = ['s'] then
              match nv.2 with
              | some v => parseFlagsLoop (String.mk v) tab ig rest
              | none =>
                match rest with
                | v :: rest2 => parseFlagsLoop v tab ig rest2
                | [] => .badFlag
            else if nv.1 = ['h'] ∨ nv.1 = ['h', 'e', 'l', 'p'] then .help
            else .badFlag

/-- flag.Parse on the command-line arguments with the default flag values of
main.go lines 60-62. -/
def parseArgs (argv : List String) : ParsedArgs :=
  parseFlagsLoop "" false false argv

/-- A whole invocation: flag.Parse on argv, then run (main.go 104-110).  On a
flag error the flag package prints its diagnostic to standard error and then
the usage text (body to standard output, defaults to standard error) and exits
with status 2; an explicit help request does the same without a diagnostic and
exits with status 0. -/
def run (argv : List String) (input : String) : RunResult :=
  match parseArgs argv with
  | .help => ⟨0, usageText, [.flagDefaults]⟩
  | .badFlag => ⟨2, usageText, [.flagUsageError, .flagDefaults]⟩
  | .ok flags => runCore flags input

/-- Specification-side selection: the fields whose 1-based position is in the
selector set, in input field order; pos is the position of the first field. -/
def selectColumns (columns : List Int) : Int → List String → List String
  | _, [] => []
  | pos, f :: rest =>
    if columns.contains pos then f :: selectColumns columns (pos + 1) rest
    else selectColumns columns (pos + 1) rest

/-- Specification-side join: tokens separated by single tab characters. -/
def tabJoin : List String → String
  | [] => ""
  | [f] => f
  | f :: g :: rest => f ++ "\t" ++ tabJoin (g :: rest)

/-- Specification-side concatenation of per-line outputs. -/
def strJoin : List String → String
  | [] => ""
  | s :: rest => s ++ strJoin rest

/-- Specification-side join of character-list tokens with a separator, used to
state that splitting by an explicit separator loses nothing. -/
def joinWithSep (sep : List Char) : List (List Char) → List Char
  | [] => []
  | [x] => x
  | x :: y :: rest => x ++ sep ++ joinWithSep sep (y :: rest)

/- Helper lemmas. -/

theorem scanLoop_all (columns : List Int) (re : Option GoRegex) (ig fr : Bool)
    (lines : List String) (h : fr = false ∨ ig = false) :
    scanLoop columns re ig fr lines =
      strJoin (lines.map fun l => emitLine columns (splitLine re l)) := by
  induction lines with
  | nil => rfl
  | cons l rest ih =>
    have hfi : (fr && ig) = false := by rcases h with h | h <;> simp [h]
    simp [scanLoop, hfi, strJoin, ih]

theorem emitFields_true (columns : List Int) : ∀ (fields : List String) (i : Nat),
    emitFields columns i true fields =
      strJoin ((selectColumns columns ((i : Int) + 1) fields).map fun g => "\t" ++ g)
  | [], _ => rfl
  | f :: rest, i => by
    have hcast : (((i + 1 : Nat)) : Int) + 1 = (i : Int) + 1 + 1 := by push_cast; ring
    have ih := emitFields_true columns rest (i + 1)
    rw [hcast] at ih
    by_cases hc : ((i : Int) + 1) ∈ columns
    · simp [emitFields, selectColumns, hc, ih, strJoin, String.append_assoc]
    · simp [emitFields, selectColumns, hc, ih]

theorem tabJoin_cons (f : String) : ∀ sel : List String,
    tabJoin (f :: sel) = f ++ strJoin (sel.map fun g => "\t" ++ g)
  | [] => by simp [tabJoin, strJoin]
  | g :: t => by
    have ih := tabJoin_cons g t
    simp [tabJoin, strJoin, ih, String.append_assoc]

theorem emitFields_false (columns : List Int) : ∀ (fields : List String) (i : Nat),
    emitFields columns i false fields =
      tabJoin (selectColumns columns ((i : Int) + 1) fields)
  | [], _ => rfl
  | f :: rest, i => by
    have hcast : (((i + 1 : Nat)) : Int) + 1 = (i : Int) + 1 + 1 := by push_cast; ring
    by_cases hc : ((i : Int) + 1) ∈ columns
    · have h1 := emitFields_true columns rest (i + 1)
      rw [hcast] at h1
      simp [emitFields, selectColumns, hc, h1, tabJoin_cons]
    · have ih := emitFields_false columns rest (i + 1)
      rw [hcast] at ih
      simp [emitFields, selectColumns, hc, ih]

theorem emitLine_eq (columns : List Int) (fields : List String) :
    emitLine columns fields = tabJoin (selectColumns columns 1 fields) ++ "\n" := by
  have h := emitFields_false columns fields 0
  norm_num at h
  rw [emitLine, h]

theorem goFieldsAux_spec : ∀ (cs cur : List Char),
    goFieldsAux cs cur =
      ((cs.splitOnP goIsSpace).modifyHead (fun h => cur.reverse ++ h)).filter
        (fun l => !l.isEmpty)
  | [], cur => by
    by_cases h : cur = []
    · simp [goFieldsAux, h, List.splitOnP_nil]
    · have hrev : cur.reverse ≠ [] := by simpa using h
      simp [goFieldsAux, h, List.splitOnP_nil, hrev]
  | c :: cs, cur => by
    by_cases hsp : goIsSpace c
    · have ih := goFieldsAux_spec cs []
      have ihid : goFieldsAux cs [] = (cs.splitOnP goIsSpace).filter (fun l => !l.isEmpty) := by
        rw [ih]
        congr 1
        cases cs.splitOnP goIsSpace <;> simp
      by_cases h : cur = []
      · simp [goFieldsAux, hsp, h, List.splitOnP_cons, ihid]
      · have hrev : cur.reverse ≠ [] := by simpa using h
        simp [goFieldsAux, hsp, h, List.splitOnP_cons, ihid, hrev]
    · have ih := goFieldsAux_spec cs (c :: cur)
      have hfun : ∀ l : List (List Char),
          (l.modifyHead (List.cons c)).modifyHead (fun h => cur.reverse ++ h) =
            l.modifyHead (fun h => (c :: cur).reverse ++ h) := by
        intro l
        cases l <;> simp [List.reverse_cons, List.append_assoc]
      simp only [goFieldsAux, hsp, if_neg, ih, List.splitOnP_cons, Bool.false_eq_true,
        if_false, hfun]

theorem goSplitAux_ne_nil (sep : List Char) : ∀ (fuel : Nat) (cs cur : List Char),
    goSplitAux sep fuel cs cur ≠ []
  | _, [], cur => by simp [goSplitAux]
  | 0, c :: cs, cur => by simp [goSplitAux]
  | fuel + 1, c :: cs, cur => by
    by_cases h : listStartsWith sep (c :: cs)
    · simp [goSplitAux, h]
    · simp only [goSplitAux, h, Bool.false_eq_true, if_false]
      exact goSplitAux_ne_nil sep fuel cs (c :: cur)

theorem listStartsWith_append : ∀ (sep l : List Char), listStartsWith sep l = true →
    sep ++ List.drop sep.length l = l
  | [], l, _ => rfl
  | p :: ps, [], h => by simp [listStartsWith] at h
  | p :: ps, c :: cs, h => by
    simp only [listStartsWith, Bool.and_eq_true, beq_iff_eq] at h
    obtain ⟨rfl, h2⟩ := h
    simpa using listStartsWith_append ps cs h2

theorem goSplitAux_join (sep : List Char) (hsep : sep ≠ []) :
    ∀ (fuel : Nat) (cs cur : List Char), cs.length ≤ fuel →
      joinWithSep sep (goSplitAux sep fuel cs cur) = cur.reverse ++ cs
  | _, [], cur, _ => by simp [goSplitAux, joinWithSep]
  | 0, c :: cs, cur, h => by simp at h
  | fuel + 1, c :: cs, cur, h => by
    by_cases hm : listStartsWith sep (c :: cs)
    · have hlen : 1 ≤ sep.length := by
        cases sep
        · exact absurd rfl hsep
        · simp
      have hdrop : (List.drop sep.length (c :: cs)).length ≤ fuel := by
        simp only [List.length_cons] at h
        simp only [List.length_drop, List.length_cons]
        omega
      have ih := goSplitAux_join sep hsep fuel (List.drop sep.length (c :: cs)) [] hdrop
      obtain ⟨x, l, hxl⟩ :
          ∃ x l, goSplitAux sep fuel (List.drop sep.length (c :: cs)) [] = x :: l :=
        List.exists_cons_of_ne_nil (goSplitAux_ne_nil sep fuel _ [])
      rw [hxl] at ih
      simp only [goSplitAux, hm, if_true, hxl, joinWithSep, List.reverse_nil,
        List.nil_append] at ih ⊢
      rw [List.append_assoc, ih, listStartsWith_append sep (c :: cs) hm]
    · have ih := goSplitAux_join sep hsep fuel cs (c :: cur) (by simpa using Nat.le_of_succ_le_succ h)
      simp only [goSplitAux, hm, Bool.false_eq_true, if_false, ih, List.reverse_cons,
        List.append_assoc, List.singleton_append]

theorem goSplit_join (sep cs : List Char) (hsep : sep ≠ []) :
    joinWithSep sep (goSplit sep cs) = cs := by
  simpa using goSplitAux_join sep hsep cs.length cs [] le_rfl

theorem parseColumnsAux_skip_valid : ∀ (pre : List String) (acc : List Int) (rest : List String),
    (∀ t ∈ pre, ∃ c : Int, goParseInt64 t = some c ∧ 1 ≤ c) →
    ∃ acc2 : List Int, parseColumnsAux acc (pre ++ rest) = parseColumnsAux acc2 rest
  | [], acc, rest, _ => ⟨acc, rfl⟩
  | t :: pre, acc, rest, h => by
    obtain ⟨c, hc, hc1⟩ := h t (List.mem_cons_self t pre)
    have hlt : ¬ c < 1 := by omega
    have ih := parseColumnsAux_skip_valid pre (if acc.contains c then acc else acc ++ [c]) rest
      (fun u hu => h u (List.mem_cons_of_mem t hu))
    simpa [parseColumnsAux, hc, hlt] using ih

theorem parseColumnsAux_error_shape : ∀ (acc : List Int) (args : List String) (e : ErrMsg),
    parseColumnsAux acc args = .error e →
    (∃ a, e = .parseArgFailed a) ∨ ∃ c, e = .invalidColumn c
  | _, [], e, h => by simp [parseColumnsAux] at h
  | acc, arg :: rest, e, h => by
    rcases hp : goParseInt64 arg with _ | c
    · simp only [parseColumnsAux, hp, Except.error.injEq] at h
      exact Or.inl ⟨arg, h.symm⟩
    · by_cases hlt : c < 1
      · simp only [parseColumnsAux, hp, hlt, if_true, Except.error.injEq] at h
        exact Or.inr ⟨c, h.symm⟩
      · simp only [parseColumnsAux, hp, hlt, if_false] at h
        exact parseColumnsAux_error_shape _ rest e h

/- Claim theorems. -/

/-- C1: for every input line processed (after header skip, when enabled), the
scan loop writes exactly the fields whose 1-based position is in the column
selector set, in input field order, separated by single tab characters, then
exactly one newline; requested columns beyond the line's field count are
silently absent, and a line where no requested column exists contributes an
empty output line. -/
theorem c1_selected_fields_tab_joined (columns : List Int) (re : Option GoRegex)
    (ignoreHeaderRow : Bool) (input : String) :
    scanOut columns re ignoreHeaderRow input =
      strJoin ((if ignoreHeaderRow then (scanLines input).drop 1 else scanLines input).map
        fun line => tabJoin (selectColumns columns 1 (splitLine re line)) ++ "\n") := by
  have hper : ∀ lines : List String,
      strJoin (lines.map fun l => emitLine columns (splitLine re l)) =
        strJoin (lines.map fun line =>
          tabJoin (selectColumns columns 1 (splitLine re line)) ++ "\n") := by
    intro lines
    simp [emitLine_eq]
  cases ignoreHeaderRow
  · rw [scanOut, scanLoop_all columns re false true (scanLines input) (Or.inr rfl)]
    simpa using hper (scanLines input)
  · rw [scanOut]
    cases scanLines input with
    | nil => rfl
    | cons l rest =>
      show scanLoop columns re true false rest = _
      rw [scanLoop_all columns re true false rest (Or.inl rfl)]
      exact hper rest

/-- C2: the claim that flags and positional column arguments can interleave
freely is violated by the code: Go flag parsing stops at the first positional
argument, so with the argument list 1, -i the token -i is treated as a column
argument and the run fails, while -i, 1 skips the header and prints column 1,
exactly as the package documentation example for trailing flags promises. -/
theorem c2_argument_order_matters :
    run ["1", "-i"] "name age\nbob 30\n" = ⟨1, "", [.parseArgFailed "-i"]⟩ ∧
      run ["-i", "1"] "name age\nbob 30\n" = ⟨0, "bob\n", []⟩ ∧
      run ["1", "-i"] "name age\nbob 30\n" ≠ run ["-i", "1"] "name age\nbob 30\n" :=
  ⟨by decide, by decide, by decide⟩

/-- C3: when flag parsing succeeds and zero positional column arguments
remain, the program prints the usage text to standard output and exits with
status 1, with a result independent of the input, hence without reading it. -/
theorem c3_missing_columns_usage (argv : List String) (sep : String) (tab ig : Bool)
    (input : String) (h : parseArgs argv = .ok ⟨sep, tab, ig, []⟩) :
    run argv input = ⟨1, usageText, [.flagDefaults]⟩ := by
  simp [run, h, runCore, parseColumns, parseColumnsAux, runAfterColumns]

theorem c3_witness : run ["-i"] "x y\n" = ⟨1, usageText, [.flagDefaults]⟩ :=
  c3_missing_columns_usage ["-i"] "" false true "x y\n" (by decide)

/-- C4: the first positional token that fails to parse as a base-10 integer or
parses to a value below 1 terminates the run with exit status 1 and one
message on the error stream, with a result independent of both the tokens
after it and the input, hence before any later token is examined and before
any input is read. -/
theorem c4_fail_fast_on_first_bad_token (sep : String) (tab ig : Bool)
    (pre : List String) (bad : String) (post : List String) (input : String)
    (hpre : ∀ t ∈ pre, ∃ c : Int, goParseInt64 t = some c ∧ 1 ≤ c)
    (hbad : goParseInt64 bad = none ∨ ∃ c : Int, goParseInt64 bad = some c ∧ c < 1) :
    runCore ⟨sep, tab, ig, pre ++ bad :: post⟩ input =
      ⟨1, "",
        [match goParseInt64 bad with
          | none => .parseArgFailed bad
          | some c => .invalidColumn c]⟩ := by
  obtain ⟨acc2, hacc⟩ := parseColumnsAux_skip_valid pre [] (bad :: post) hpre
  rcases hbad with hnone | ⟨c, hc, hlt⟩
  · simp [runCore, parseColumns, hacc, parseColumnsAux, hnone]
  · simp [runCore, parseColumns, hacc, parseColumnsAux, hc, hlt]

theorem c4_witness :
    runCore ⟨"", false, false, ["2", "0", "xyz"]⟩ "a b\n" = ⟨1, "", [.invalidColumn 0]⟩ := by
  have h := c4_fail_fast_on_first_bad_token "" false false ["2"] "0" ["xyz"] "a b\n"
    (by intro t ht; simp only [List.mem_singleton] at ht; subst ht
        exact ⟨2, by decide, by decide⟩)
    (Or.inr ⟨0, by decide, by decide⟩)
  exact h

/-- C5: when at least one valid column argument was supplied, a non-empty
explicit separator together with the tab-shorthand flag makes the run fail
with the conflicting-separator error and exit status 1, with empty standard
output and a result independent of the input, hence before any input is
read. -/
theorem c5_conflicting_separator (sep : String) (ig : Bool) (args : List String)
    (input : String) (columns : List Int)
    (hcols : parseColumns args = .ok columns) (hne : columns ≠ [])
    (hsep : sep ≠ "") :
    runCore ⟨sep, true, ig, args⟩ input = ⟨1, "", [.conflictingSeparators]⟩ := by
  simp [runCore, hcols, runAfterColumns, hne, hsep]

theorem c5_witness :
    runCore ⟨",", true, false, ["1"]⟩ "a,b\n" = ⟨1, "", [.conflictingSeparators]⟩ :=
  c5_conflicting_separator "," false ["1"] "a,b\n" [1] rfl (by decide) (by decide)

/-- C6: with no separator options, every line is split into the maximal
whitespace-free runs of the whitespace-run splitting of its characters with
all empty tokens dropped, so leading and trailing whitespace is ignored; in
particular the line of two leading spaces, a, three spaces, b, two spaces, c
and a trailing space with columns 1, 2, 3 produces the output a, tab, b, tab,
c, newline. -/
theorem c6_default_whitespace_split :
    (∀ s : String, goFields s =
        (((s.toList.splitOnP goIsSpace).filter fun l => !l.isEmpty).map String.mk)) ∧
      runCore ⟨"", false, false, ["1", "2", "3"]⟩ "  a   b  c \n" =
        ⟨0, "a\tb\tc\n", []⟩ := by
  constructor
  · intro s
    rw [goFields, goFieldsAux_spec]
    congr 1
    cases s.toList.splitOnP goIsSpace <;> simp
  · decide

/-- C7: with an explicit separator the line is split literally around every
occurrence without dropping empty tokens, so rejoining the pieces with the
separator restores the line; the comma separator splits a, comma, comma, b
into three fields with the middle one empty, and the full run with separator
comma on input a,b,c with columns 1 and 3 outputs a, tab, c, newline. -/
theorem c7_regex_split_keeps_empty_tokens :
    (∀ sep cs : List Char, sep ≠ [] → joinWithSep sep (goSplit sep cs) = cs) ∧
      regexSplit (.literal ",") "a,,b" = ["a", "", "b"] ∧
      run ["-s", ",", "1", "3"] "a,b,c\n" = ⟨0, "a\tc\n", []⟩ :=
  ⟨fun sep cs h => goSplit_join sep cs h, by decide, by decide⟩

theorem c7_witness :
    joinWithSep [','] (goSplit [','] ['a', ',', ',', 'b']) = ['a', ',', ',', 'b'] :=
  c7_regex_split_keeps_empty_tokens.1 [','] ['a', ',', ',', 'b'] (by decide)

/-- C8: with header skip enabled, exactly the first scanned line is discarded,
producing no output, and every other line is processed, regardless of the
first line's content; the header example input with columns selecting the
second column outputs 30, newline. -/
theorem c8_header_skip_exactly_first_line :
    (∀ (columns : List Int) (re : Option GoRegex) (lines : List String),
        scanLoop columns re true true lines =
          strJoin ((lines.drop 1).map fun l => emitLine columns (splitLine re l))) ∧
      run ["-i", "2"] "name age\nbob 30\n" = ⟨0, "30\n", []⟩ := by
  constructor
  · intro columns re lines
    cases lines with
    | nil => rfl
    | cons l rest =>
      show scanLoop columns re true false rest = _
      exact scanLoop_all columns re true false rest (Or.inl rfl)
  · decide

/-- C9: each selected field is written to the output verbatim: a line whose
single field is selected is emitted unaltered followed by the newline, and
fields containing percent signs such as a string or decimal format verb pass
through unchanged, since the fields are written with fmt.Fprint which performs
no format interpretation. -/
theorem c9_fields_written_verbatim :
    (∀ f : String, emitLine [1] [f] = f ++ "\n") ∧
      run ["1", "2"] "%s %d\n" = ⟨0, "%s\t%d\n", []⟩ := by
  constructor
  · intro f
    simp [emitLine, emitFields]
  · decide

/-- C10: the empty-column-set check runs before separator validation: with
zero positional arguments the run takes the usage path whatever the separator
options hold, and conversely a conflicting-separator or separator-compile
error on the error stream can only arise when the positional arguments parsed
to a non-empty column set. -/
theorem c10_missing_columns_check_first :
    (∀ (sep : String) (tab ig : Bool) (input : String),
        runCore ⟨sep, tab, ig, []⟩ input = ⟨1, usageText, [.flagDefaults]⟩) ∧
      ∀ (flags : GoFlags) (input : String) (e : ErrMsg),
        e ∈ (runCore flags input).stderrMsgs →
        (e = .conflictingSeparators ∨ ∃ s, e = .separatorCompileFailed s) →
        ∃ columns, parseColumns flags.args = .ok columns ∧ columns ≠ [] := by
  constructor
  · intro sep tab ig input
    simp [runCore, parseColumns, parseColumnsAux, runAfterColumns]
  · intro flags input e hmem hshape
    rcases hp : parseColumns flags.args with e2 | columns
    · have hsh := parseColumnsAux_error_shape [] flags.args e2 hp
      simp only [runCore, hp, List.mem_singleton] at hmem
      subst hmem
      rcases hshape with h | ⟨s, h⟩ <;>
        rcases hsh with ⟨a, ha⟩ | ⟨c, hc⟩ <;> simp_all
    · by_cases hnil : columns = []
      · simp only [runCore, hp, runAfterColumns, hnil, if_true, List.mem_singleton] at hmem
        subst hmem
        rcases hshape with h | ⟨s, h⟩ <;> simp_all
      · exact ⟨columns, rfl, hnil⟩

theorem c10_witness :
    ∃ columns, parseColumns (GoFlags.mk "," true false ["1"]).args = .ok columns ∧
      columns ≠ [] :=
  c10_missing_columns_check_first.2 ⟨",", true, false, ["1"]⟩ "" .conflictingSeparators
    (by decide) (Or.inl rfl)

end Cl
